import Mathlib

/-!
Verification of the add-column online DDL engine (`src/ddl/column.go`).

The Go source is shallowly embedded: the pure schema-mutator functions
(`adjustColumnOffset`, `addColumn`) become pure Lean functions over lists;
the job state machine (`onColumnAdd`) becomes a pure step function taking an
environment oracle (modelling the outcomes of the external collaborators
`Meta.GenSchemaVersion`, `Meta.UpdateTable`, `store.CurrentVersion`,
`getTable`, `runReorgJob`) and returning the updated job, table, an effect
trace, and the invocation's result; the per-row backfill transaction body of
`backfillColumn` becomes a function of the row's current view of the store.
Helpers that live outside `column.go` (`findCol`, `buildColumnAndConstraint`,
`checkRowExist`, `getTableInfo`) are modelled from the spec and marked so.
-/

namespace Ddl

/-- Column/schema lifecycle states (`model.StateNone` … `model.StatePublic`). -/
inductive SchemaState where
  | stNone
  | deleteOnly
  | writeOnly
  | reorganization
  | public
  deriving DecidableEq, Repr

/-- Job lifecycle states (`model.JobRunning`, `model.JobCancelled`, `model.JobDone`). -/
inductive JobState where
  | running
  | cancelled
  | done
  deriving DecidableEq, Repr

/-- Column values written by backfill (`ColumnInfo.DefaultValue`), abstracted. -/
abbrev Val := Int

/-- Embedding of `model.ColumnInfo`: name, `Offset`, `TempOffset`, `State`, default value. -/
structure ColumnInfo where
  name : String
  offset : Nat
  tempOffset : Nat
  state : SchemaState
  defaultValue : Val := 0
  deriving DecidableEq, Repr

/-- A column reference inside `model.IndexInfo` (`IndexColumn`): refers to a column
by its `Offset`. -/
structure IndexColumn where
  offset : Nat
  deriving DecidableEq, Repr

/-- Embedding of `model.IndexInfo`: a list of column references. -/
structure IndexInfo where
  columns : List IndexColumn
  deriving DecidableEq, Repr

/-- Embedding of `model.TableInfo`: ordered column list plus indices. -/
structure TableInfo where
  columns : List ColumnInfo
  indices : List IndexInfo
  deriving DecidableEq, Repr

/-! ### `adjustColumnOffset` (column.go lines 31–48)

The Go code builds `offsetChanged : map[int]int` by inserting
`old Offset ↦ TempOffset` for the columns in order (later inserts overwrite
earlier ones), sets every column's `Offset` to its `TempOffset`, and then
rewrites every index column reference through the finished map.  The Go map is
modelled as an association list built by prepending, so that `List.lookup`
(first match) realises the map's last-write-wins semantics. -/

/-- The `offsetChanged` map of `adjustColumnOffset`: old `Offset ↦ TempOffset`,
last write wins (realised by prepending and first-match lookup). -/
def offsetChangedMap (columns : List ColumnInfo) : List (Nat × Nat) :=
  columns.foldl (fun m c => (c.offset, c.tempOffset) :: m) []

/-- Embedding of `adjustColumnOffset`: fold every column's `TempOffset` into `Offset` and
rewrite index column references through the old→new offset map. -/
def adjustColumnOffset (columns : List ColumnInfo) (indices : List IndexInfo) :
    List ColumnInfo × List IndexInfo :=
  let offsetChanged := offsetChangedMap columns
  let newColumns := columns.map fun c => { c with offset := c.tempOffset }
  let newIndices := indices.map fun idx =>
    { idx with
      columns := idx.columns.map fun c =>
        match offsetChanged.lookup c.offset with
        | some newOffset => { c with offset := newOffset }
        | none => c }
  (newColumns, newIndices)

/-! ### Helpers modelled from the spec (defined outside `column.go`) -/

/-- Modelled from the spec: `findCol` (defined in the `column` package, outside
this file's source) locates the existing `ColumnInfo` with the target name
(spec §4.1 step 3, "Locate an existing ColumnInfo with the target name").
First match by name. -/
def findCol : List ColumnInfo → String → Option ColumnInfo
  | [], _ => none
  | c :: cs, name => if c.name = name then some c else findCol cs name

/-- A parsed column definition (`spec.Column`), of which only the name is
relevant to the state machine. -/
structure ColumnDef where
  name : String
  defaultValue : Val := 0
  deriving DecidableEq, Repr

/-- Embedding of `ColumnPosition.Type` (`ColumnPositionNone | First | After`). -/
inductive ColumnPositionType where
  | posNone
  | first
  | after
  deriving DecidableEq, Repr

/-- Embedding of `ColumnPosition`: position type plus the relative column name for `After`. -/
structure ColumnPosition where
  tp : ColumnPositionType
  relativeColumn : String := ""
  deriving DecidableEq, Repr

/-- Embedding of `AlterSpecification`: the decoded job arguments relevant to add-column. -/
structure AlterSpecification where
  column : ColumnDef
  position : ColumnPosition
  deriving DecidableEq, Repr

/-- Modelled from the spec: `buildColumnAndConstraint` (outside this file's
source) builds the new `ColumnInfo` from the parsed column definition
(spec §4.2, "Builds the new ColumnInfo").  `addColumn` immediately overwrites
its `State` and `Offset`, so only the carried name and default value matter. -/
def buildColumnAndConstraint (position : Nat) (colDef : ColumnDef) : ColumnInfo :=
  { name := colDef.name
    offset := position
    tempOffset := 0
    state := .stNone
    defaultValue := colDef.defaultValue }

/-! ### `addColumn` (column.go lines 50–93) -/

/-- Errors returned (or panics raised) by the embedded functions. -/
inductive DdlError where
  | getTableInfoErr
  | decodeArgsErr
  | columnAlreadyExists (name : String)
  | noSuchColumn (name : String)
  | panicSliceOutOfRange
  | genSchemaVersionErr
  | currentVersionErr
  | getTableErr
  | reorgErr
  | updateTableErr
  | invalidColumnState
  deriving DecidableEq, Repr

/-- The splice position `addColumn` computes: `len(cols)` by default, `0` for
`First`, `(found column's Offset)+1` for `After` (error when the relative
column is not found; the Go error message names `spec.Column.Name`). -/
def addColumnPosition (tblInfo : TableInfo) (spec : AlterSpecification) :
    Except DdlError Nat :=
  match spec.position.tp with
  | .first => .ok 0
  | .after =>
    match findCol tblInfo.columns spec.position.relativeColumn with
    | none => .error (.noSuchColumn spec.column.name)
    | some c => .ok (c.offset + 1)
  | .posNone => .ok tblInfo.columns.length

/-- Stamp every column's `TempOffset` with its index in the list, starting the
count at `i` (the loop of column.go lines 86–89, unrolled from index `i`). -/
def stampTempOffsetsFrom (i : Nat) : List ColumnInfo → List ColumnInfo
  | [] => []
  | c :: cs => { c with tempOffset := i } :: stampTempOffsetsFrom (i + 1) cs

/-- Stamp every column's `TempOffset` with its index in the list
(column.go lines 86–89). -/
def stampTempOffsets (cols : List ColumnInfo) : List ColumnInfo :=
  stampTempOffsetsFrom 0 cols

/-- Embedding of `addColumn`: resolve the splice position, build the new column with state
`None` and `Offset = len(cols)` (the pre-insertion length), splice it into the
column list at the position, and stamp all `TempOffset`s.  The Go function
returns the pointer to the new column, which after the stamping loop carries
`TempOffset = position` (its index in the spliced list); it is returned here
by value with that stamp applied.  A splice position beyond the list length
would make the Go slice expression panic; that panic is embedded as the
distinguished error `panicSliceOutOfRange`. -/
def addColumn (tblInfo : TableInfo) (spec : AlterSpecification) :
    Except DdlError (ColumnInfo × TableInfo) :=
  let cols := tblInfo.columns
  match addColumnPosition tblInfo spec with
  | .error e => .error e
  | .ok position =>
    if position ≤ cols.length then
      let col := buildColumnAndConstraint position spec.column
      let colInfo : ColumnInfo := { col with state := .stNone, offset := cols.length }
      let newCols := stampTempOffsets (cols.take position ++ colInfo :: cols.drop position)
      .ok ({ colInfo with tempOffset := position }, { tblInfo with columns := newCols })
    else
      .error .panicSliceOutOfRange

/-! ### `onColumnAdd` (column.go lines 95–196)

The state machine is embedded as a pure step function.  The outcomes of the
external collaborators (spec §6: `Meta.GenSchemaVersion`, `Meta.UpdateTable`,
`store.CurrentVersion`, `getTable`, and the reorg runner wrapping
`backfillColumn`) are supplied by the `Env` oracle; the calls the invocation
makes are recorded in an effect trace so that claims about "what was called
before returning" are statements about the trace. -/

/-- Embedding of `model.Job`: lifecycle state, mirrored schema state, reorg snapshot
version, and the decoded arguments (`DecodeArgs`; `none` models a decode
failure). -/
structure Job where
  state : JobState
  schemaState : SchemaState
  snapshotVer : Nat
  args : Option AlterSpecification
  deriving DecidableEq, Repr

/-- Outcome of `runReorgJob` around `backfillColumn`: success, the
distinguished `errWaitReorgTimeout`, or any other error. -/
inductive ReorgResult where
  | success
  | timeout
  | failure
  deriving DecidableEq, Repr

/-- Oracle for the external collaborators consumed by one `onColumnAdd`
invocation. -/
structure Env where
  getTableInfoOk : Bool
  genSchemaVersionOk : Bool
  updateTableOk : Bool
  currentVersionOk : Bool
  currentVersion : Nat
  getTableOk : Bool
  reorg : ReorgResult
  deriving DecidableEq, Repr

/-- The environment in which every external call succeeds and the reorg runner
reports success. -/
def Env.allOk (env : Env) : Prop :=
  env.getTableInfoOk = true ∧ env.genSchemaVersionOk = true ∧
  env.updateTableOk = true ∧ env.currentVersionOk = true ∧
  env.getTableOk = true ∧ env.reorg = .success

instance (env : Env) : Decidable env.allOk := by
  unfold Env.allOk; infer_instance

/-- Externally visible calls made by one invocation, in order. -/
inductive Effect where
  | genSchemaVersion
  | updateTable (tbl : TableInfo)
  | currentVersion
  | runReorg (snapshotVer : Nat)
  deriving DecidableEq, Repr

/-- Result of one `onColumnAdd` invocation: the Go return value, the mutated
job and table metadata, and the trace of external calls. -/
structure StepResult where
  res : Except DdlError Unit
  job : Job
  tbl : TableInfo
  effects : List Effect
  deriving Repr

/-- Mutation through the `columnInfo` pointer (`columnInfo.State = …`):
set the state of the first column with the given name. -/
def setColState : List ColumnInfo → String → SchemaState → List ColumnInfo
  | [], _, _ => []
  | c :: cs, name, st =>
    if c.name = name then { c with state := st } :: cs
    else c :: setColState cs name st

/-- The state of the (first) column with the given name in a table. -/
def colStateIn (tbl : TableInfo) (name : String) : Option SchemaState :=
  (findCol tbl.columns name).map (·.state)

/-- The table metadata produced by the success path of the reorganization
phase (column.go lines 180–183): offsets adjusted, then the column made
`Public` through the `columnInfo` pointer. -/
def publicizedTable (tbl : TableInfo) (name : String) : TableInfo :=
  { columns := setColState (adjustColumnOffset tbl.columns tbl.indices).1 name .public,
    indices := (adjustColumnOffset tbl.columns tbl.indices).2 }

/-- The `StateReorgnization` arm of `onColumnAdd` (column.go lines 151–192),
entered with the snapshot version already anchored on `job` and the effects
accumulated so far. -/
def reorgPhase (env : Env) (job : Job) (tbl : TableInfo) (name : String)
    (effs : List Effect) : StepResult :=
  if env.getTableOk then
    let effs := effs ++ [Effect.runReorg job.snapshotVer]
    match env.reorg with
    | .timeout => ⟨.ok (), job, tbl, effs⟩
    | .failure => ⟨.error .reorgErr, job, tbl, effs⟩
    | .success =>
      let tbl2 := publicizedTable tbl name
      let effs := effs ++ [Effect.updateTable tbl2]
      if env.updateTableOk then
        ⟨.ok (), { job with schemaState := .public, state := .done }, tbl2, effs⟩
      else
        ⟨.error .updateTableErr, job, tbl2, effs⟩
  else
    ⟨.error .getTableErr, job, tbl, effs⟩

/-- One of the three one-step transition arms of `onColumnAdd`
(column.go lines 131–150): set the job's mirrored `SchemaState`, set the
column's state through the `columnInfo` pointer, and call `UpdateTable`. -/
def transitionArm (env : Env) (job : Job) (tbl : TableInfo) (name : String)
    (next : SchemaState) (resetSnapshotVer : Bool) (effs : List Effect) : StepResult :=
  let job1 :=
    if resetSnapshotVer then { job with schemaState := next, snapshotVer := 0 }
    else { job with schemaState := next }
  let tbl2 : TableInfo := { tbl with columns := setColState tbl.columns name next }
  let effs := effs ++ [Effect.updateTable tbl2]
  if env.updateTableOk then ⟨.ok (), job1, tbl2, effs⟩
  else ⟨.error .updateTableErr, job1, tbl2, effs⟩

/-- Embedding of `onColumnAdd`: one invocation of the job state machine.  `getTableInfo` is
modelled from the spec ("Load TableInfo for the job's schema/table", fallible)
as the oracle flag `getTableInfoOk` over the passed-in `tblInfo0`. -/
def onColumnAdd (env : Env) (job : Job) (tblInfo0 : TableInfo) : StepResult :=
  if env.getTableInfoOk then
    match job.args with
    | none => ⟨.error .decodeArgsErr, { job with state := .cancelled }, tblInfo0, []⟩
    | some spec =>
      let resolved : Except DdlError (SchemaState × TableInfo) :=
        match findCol tblInfo0.columns spec.column.name with
        | some ci =>
          if ci.state = .public then .error (.columnAlreadyExists spec.column.name)
          else .ok (ci.state, tblInfo0)
        | none =>
          match addColumn tblInfo0 spec with
          | .error e => .error e
          | .ok (ci, tbl1) => .ok (ci.state, tbl1)
      match resolved with
      | .error e => ⟨.error e, { job with state := .cancelled }, tblInfo0, []⟩
      | .ok (st, tbl1) =>
        if env.genSchemaVersionOk then
          let effs0 := [Effect.genSchemaVersion]
          match st with
          | .stNone => transitionArm env job tbl1 spec.column.name .deleteOnly false effs0
          | .deleteOnly => transitionArm env job tbl1 spec.column.name .writeOnly false effs0
          | .writeOnly => transitionArm env job tbl1 spec.column.name .reorganization true effs0
          | .reorganization =>
            if job.snapshotVer = 0 then
              if env.currentVersionOk then
                reorgPhase env { job with snapshotVer := env.currentVersion } tbl1
                  spec.column.name (effs0 ++ [Effect.currentVersion])
              else
                ⟨.error .currentVersionErr, job, tbl1, effs0 ++ [Effect.currentVersion]⟩
            else
              reorgPhase env job tbl1 spec.column.name effs0
          | .public => ⟨.error .invalidColumnState, job, tbl1, effs0⟩
        else
          ⟨.error .genSchemaVersionErr, job, tbl1, [Effect.genSchemaVersion]⟩
  else
    ⟨.error .getTableInfoErr, job, tblInfo0, []⟩

/-- Iterated invocation of the state machine (the owner's retry loop). -/
def runN (env : Env) : Nat → Job × TableInfo → Job × TableInfo
  | 0, s => s
  | n + 1, (j, tbl) =>
    let r := onColumnAdd env j tbl
    runN env n (r.job, r.tbl)

/-- The phase ladder successor: `None → DeleteOnly → WriteOnly →
Reorganization → Public` (spec §4.1). -/
def nextState : SchemaState → SchemaState
  | .stNone => .deleteOnly
  | .deleteOnly => .writeOnly
  | .writeOnly => .reorganization
  | .reorganization => .public
  | .public => .public

/-! ### `backfillColumn` (column.go lines 203–288)

The snapshot scan (lines 213–239 and 278–284) yields the row handles under
the table prefix in order; it is embedded as the list of handles it produces,
each paired with that row's view of the live store when its per-row
transaction runs.  The per-row transaction body (the closure passed to
`kv.RunInNewTxn`, lines 242–276) is embedded as `backfillColumnTxn`.
`checkRowExist` is modelled from the spec ("Check whether the row still
exists", §4.4 step 1) as the fallible boolean `rowExistsRes`.  Note that the
Go code assigns `RunInNewTxn`'s error to `err` (line 242) but overwrites it
with `kv.NextUntil`'s error (line 279) before ever checking it, so a failed
per-row transaction does not abort the scan; the loop model reflects this. -/

/-- Result of `txn.Get(backfillKey)` (line 254): a stored value, the
distinguished not-found error, or any other error. -/
inductive GetResult where
  | found (v : Val)
  | notFound
  | getFailure
  deriving DecidableEq, Repr

/-- Result of `checkRowExist` (modelled from the spec, §4.4 step 1): whether
the row still exists in the live store, or an error. -/
inductive ExistResult where
  | exist (b : Bool)
  | err
  deriving DecidableEq, Repr

/-- One row's view of the live store at the time its backfill transaction
runs, together with the outcomes of the fallible store calls. -/
structure RowView where
  rowExistsRes : ExistResult
  getRes : GetResult
  lockOk : Bool
  setOk : Bool
  deriving DecidableEq, Repr

/-- Errors of the per-row backfill transaction. -/
inductive TxnError where
  | checkRowExistErr
  | getErr
  | lockErr
  | setColValueErr
  deriving DecidableEq, Repr

/-- Writes and locks performed by one per-row transaction:
`txn.LockKeys(t.RecordKey(handle, nil))` and
`SetColValue(txn, t.RecordKey(handle, col), defaultValue)`. -/
inductive TxnEffect where
  | lockKeys
  | setColValue (v : Val)
  deriving DecidableEq, Repr

/-- The per-row transaction body (lines 242–276): skip when the row no longer
exists; propagate a non-not-found `Get` error; otherwise lock the row and
write the column's default value.  The Go code falls through to the lock and
write both when `Get` reports not-found and when it finds a value. -/
def backfillColumnTxn (rv : RowView) (defaultValue : Val) :
    List TxnEffect × Except TxnError Unit :=
  match rv.rowExistsRes with
  | .err => ([], .error .checkRowExistErr)
  | .exist false => ([], .ok ())
  | .exist true =>
    match rv.getRes with
    | .getFailure => ([], .error .getErr)
    | _ =>
      if rv.lockOk then
        if rv.setOk then
          ([TxnEffect.lockKeys, TxnEffect.setColValue defaultValue], .ok ())
        else ([TxnEffect.lockKeys], .error .setColValueErr)
      else ([], .error .lockErr)

/-- The backfill scan loop (lines 226–285) over the handles produced by the
snapshot iterator: run each row's transaction, collect its effects tagged with
the handle, and continue to the next row (the per-row error is overwritten
unchecked, see the section comment); the final outer `txn.Commit()` succeeds. -/
def backfillColumn (rows : List (Int × RowView)) (defaultValue : Val) :
    List (Int × TxnEffect) × Except TxnError Unit :=
  match rows with
  | [] => ([], .ok ())
  | (h, rv) :: rest =>
    let step := backfillColumnTxn rv defaultValue
    let restRes := backfillColumn rest defaultValue
    (step.1.map (fun e => (h, e)) ++ restRes.1, restRes.2)

/-- Forget a column's `TempOffset` scratch field (used to state which parts of
a column list an operation leaves untouched). -/
def eraseTempOffset (c : ColumnInfo) : ColumnInfo :=
  { c with tempOffset := 0 }

/-! ### Concrete sample data (tables, specs, jobs, environments) -/

/-- Sample environment: every external call succeeds. -/
def envOk : Env :=
  { getTableInfoOk := true, genSchemaVersionOk := true, updateTableOk := true,
    currentVersionOk := true, currentVersion := 1, getTableOk := true, reorg := .success }

/-- Sample column: a public column `a` at offset 0. -/
def colPubA : ColumnInfo :=
  { name := "a", offset := 0, tempOffset := 0, state := .public }

/-- Sample table with the single public column `a` and no indices. -/
def tblA : TableInfo :=
  { columns := [colPubA], indices := [] }

/-- Sample alter specification: add `c` after the nonexistent column `zz`. -/
def specAfterZZ : AlterSpecification :=
  { column := { name := "c" }, position := { tp := .after, relativeColumn := "zz" } }

/-- Sample alter specification: add `a`, which already exists publicly. -/
def specDupA : AlterSpecification :=
  { column := { name := "a" }, position := { tp := .posNone } }

/-- Sample alter specification: add a fresh column `c` at the default
position. -/
def specAddC : AlterSpecification :=
  { column := { name := "c" }, position := { tp := .posNone } }

/-- Sample running job carrying the given decoded arguments and snapshot
version. -/
def jobWith (args : Option AlterSpecification) (sv : Nat) : Job :=
  { state := .running, schemaState := .stNone, snapshotVer := sv, args := args }

/-! ## Lemmas about the schema mutator -/

theorem length_stampTempOffsetsFrom (i : Nat) (l : List ColumnInfo) :
    (stampTempOffsetsFrom i l).length = l.length := by
  induction l generalizing i with
  | nil => rfl
  | cons c cs ih => simp [stampTempOffsetsFrom, ih]

theorem stampTempOffsetsFrom_append (i : Nat) (l₁ l₂ : List ColumnInfo) :
    stampTempOffsetsFrom i (l₁ ++ l₂) =
      stampTempOffsetsFrom i l₁ ++ stampTempOffsetsFrom (i + l₁.length) l₂ := by
  induction l₁ generalizing i with
  | nil => simp [stampTempOffsetsFrom]
  | cons c cs ih =>
    simp only [List.cons_append, stampTempOffsetsFrom, List.append_eq, ih, List.length_cons]
    have h : i + 1 + cs.length = i + (cs.length + 1) := by omega
    rw [h]

theorem map_eraseTempOffset_stampTempOffsetsFrom (i : Nat) (l : List ColumnInfo) :
    (stampTempOffsetsFrom i l).map eraseTempOffset = l.map eraseTempOffset := by
  induction l generalizing i with
  | nil => rfl
  | cons c cs ih => simp [stampTempOffsetsFrom, ih, eraseTempOffset]

theorem tempOffset_getElem_stampTempOffsetsFrom (i : Nat) (l : List ColumnInfo)
    (j : Nat) (hj : j < (stampTempOffsetsFrom i l).length) :
    (stampTempOffsetsFrom i l)[j].tempOffset = i + j := by
  induction l generalizing i j with
  | nil => simp [stampTempOffsetsFrom] at hj
  | cons c cs ih =>
    cases j with
    | zero => simp [stampTempOffsetsFrom]
    | succ j' =>
      simp only [stampTempOffsetsFrom, List.getElem_cons_succ]
      rw [ih]
      omega

theorem findCol_eq_none_iff (l : List ColumnInfo) (n : String) :
    findCol l n = none ↔ ∀ c ∈ l, c.name ≠ n := by
  induction l with
  | nil => simp [findCol]
  | cons c cs ih =>
    by_cases hc : c.name = n <;> simp [findCol, hc, ih]

theorem findCol_append_of_none (l₁ l₂ : List ColumnInfo) (n : String)
    (h : findCol l₁ n = none) : findCol (l₁ ++ l₂) n = findCol l₂ n := by
  induction l₁ with
  | nil => simp
  | cons c cs ih =>
    by_cases hc : c.name = n
    · simp [findCol, hc] at h
    · simp [findCol, hc] at h ⊢
      exact ih h

theorem findCol_mem (l : List ColumnInfo) (n : String) (c : ColumnInfo)
    (h : findCol l n = some c) : c ∈ l := by
  induction l with
  | nil => simp [findCol] at h
  | cons d ds ih =>
    by_cases hd : d.name = n
    · simp [findCol, hd] at h
      simp [h.symm]
    · simp [findCol, hd] at h
      exact List.mem_cons_of_mem _ (ih h)

theorem findCol_name (l : List ColumnInfo) (n : String) (c : ColumnInfo)
    (h : findCol l n = some c) : c.name = n := by
  induction l with
  | nil => simp [findCol] at h
  | cons d ds ih =>
    by_cases hd : d.name = n
    · simp [findCol, hd] at h
      rw [← h]; exact hd
    · simp [findCol, hd] at h
      exact ih h

theorem findCol_stampTempOffsetsFrom_of_none (i : Nat) (l : List ColumnInfo)
    (n : String) (h : ∀ c ∈ l, c.name ≠ n) :
    findCol (stampTempOffsetsFrom i l) n = none := by
  induction l generalizing i with
  | nil => simp [stampTempOffsetsFrom, findCol]
  | cons c cs ih =>
    have hc : c.name ≠ n := h c (List.mem_cons_self c cs)
    simp only [stampTempOffsetsFrom, findCol, hc, if_false]
    exact ih (i + 1) fun d hd => h d (List.mem_cons_of_mem _ hd)

theorem findCol_setColState (l : List ColumnInfo) (n : String) (st : SchemaState) :
    findCol (setColState l n st) n =
      (findCol l n).map fun c => { c with state := st } := by
  induction l with
  | nil => simp [setColState, findCol]
  | cons c cs ih =>
    by_cases hc : c.name = n
    · simp [setColState, findCol, hc]
    · simp [setColState, findCol, hc, ih]

theorem findCol_map_of_name (l : List ColumnInfo) (n : String)
    (f : ColumnInfo → ColumnInfo) (hf : ∀ c, (f c).name = c.name) :
    findCol (l.map f) n = (findCol l n).map f := by
  induction l with
  | nil => simp [findCol]
  | cons c cs ih =>
    by_cases hc : c.name = n
    · simp [findCol, hf, hc]
    · simp [findCol, hf, hc, ih]

theorem addColumn_eq_ok (tbl : TableInfo) (spec : AlterSpecification) (p : Nat)
    (hp : addColumnPosition tbl spec = .ok p) (hple : p ≤ tbl.columns.length) :
    addColumn tbl spec = .ok
      ({ name := spec.column.name, offset := tbl.columns.length, tempOffset := p,
         state := .stNone, defaultValue := spec.column.defaultValue },
       { tbl with columns := (stampTempOffsets
          (tbl.columns.take p ++
            { name := spec.column.name, offset := tbl.columns.length, tempOffset := 0,
              state := .stNone, defaultValue := spec.column.defaultValue } ::
              tbl.columns.drop p)) }) := by
  simp [addColumn, hp, hple, buildColumnAndConstraint]

/-- Full description of a successful `addColumn`: the returned column, the
logical order of the new column list (after erasing the `TempOffset` stamps),
its length, the contiguous `TempOffset` stamping, and the untouched indices. -/
theorem addColumn_ok_description (tbl : TableInfo) (spec : AlterSpecification) (p : Nat)
    (hp : addColumnPosition tbl spec = .ok p) (hple : p ≤ tbl.columns.length) :
    ∃ ci tbl', addColumn tbl spec = .ok (ci, tbl') ∧
      ci = { name := spec.column.name, offset := tbl.columns.length, tempOffset := p,
             state := .stNone, defaultValue := spec.column.defaultValue } ∧
      tbl'.columns.map eraseTempOffset =
        (tbl.columns.map eraseTempOffset).take p ++
          eraseTempOffset ci :: (tbl.columns.map eraseTempOffset).drop p ∧
      tbl'.columns.length = tbl.columns.length + 1 ∧
      (∀ j, (hj : j < tbl'.columns.length) → tbl'.columns[j].tempOffset = j) ∧
      tbl'.indices = tbl.indices := by
  refine ⟨_, _, addColumn_eq_ok tbl spec p hp hple, rfl, ?_, ?_, ?_, rfl⟩
  · simp only [stampTempOffsets, map_eraseTempOffset_stampTempOffsetsFrom]
    simp [eraseTempOffset, List.map_take, List.map_drop]
  · simp only [stampTempOffsets, length_stampTempOffsetsFrom]
    simp [List.length_take, List.length_drop]
    omega
  · intro j hj
    simp only [stampTempOffsets] at hj ⊢
    rw [tempOffset_getElem_stampTempOffsetsFrom]
    omega

/-- The splice position is in bounds whenever the existing offsets satisfy the
data-model invariant (`Offset` values lie in `0..N-1`). -/
theorem addColumnPosition_le (tbl : TableInfo) (spec : AlterSpecification) (p : Nat)
    (hinv : ∀ c ∈ tbl.columns, c.offset < tbl.columns.length)
    (hp : addColumnPosition tbl spec = .ok p) :
    p ≤ tbl.columns.length := by
  unfold addColumnPosition at hp
  cases htp : spec.position.tp with
  | first => simp [htp] at hp; omega
  | posNone => simp [htp] at hp; omega
  | after =>
    rw [htp] at hp
    cases hf : findCol tbl.columns spec.position.relativeColumn with
    | none => simp [hf] at hp
    | some cX =>
      simp [hf] at hp
      have := hinv cX (findCol_mem _ _ _ hf)
      omega

/-- C4: for every table and every valid `AlterSpecification` position,
`addColumn` produces a column list whose logical order splices the new column
at position `0` (`first`), at `(X's Offset)+1` (`after X` with `X` existing),
or at the end (default); the new column's `Offset` equals the pre-insertion
length of the column list and its `State` is `None`; every column's
`TempOffset` equals its index in the new logical list; and an `after X`
position where `X` does not exist returns an error. -/
theorem C4_addColumn_insertion_positions (tbl : TableInfo) (spec : AlterSpecification)
    (hinv : ∀ c ∈ tbl.columns, c.offset < tbl.columns.length) :
    (spec.position.tp = .first →
      ∃ ci tbl', addColumn tbl spec = .ok (ci, tbl') ∧
        ci.name = spec.column.name ∧ ci.offset = tbl.columns.length ∧ ci.state = .stNone ∧
        tbl'.columns.map eraseTempOffset =
          eraseTempOffset ci :: tbl.columns.map eraseTempOffset ∧
        (∀ j, (hj : j < tbl'.columns.length) → tbl'.columns[j].tempOffset = j)) ∧
    (∀ cX, spec.position.tp = .after →
      findCol tbl.columns spec.position.relativeColumn = some cX →
      ∃ ci tbl', addColumn tbl spec = .ok (ci, tbl') ∧
        ci.name = spec.column.name ∧ ci.offset = tbl.columns.length ∧ ci.state = .stNone ∧
        tbl'.columns.map eraseTempOffset =
          (tbl.columns.map eraseTempOffset).take (cX.offset + 1) ++
            eraseTempOffset ci :: (tbl.columns.map eraseTempOffset).drop (cX.offset + 1) ∧
        (∀ j, (hj : j < tbl'.columns.length) → tbl'.columns[j].tempOffset = j)) ∧
    (spec.position.tp = .posNone →
      ∃ ci tbl', addColumn tbl spec = .ok (ci, tbl') ∧
        ci.name = spec.column.name ∧ ci.offset = tbl.columns.length ∧ ci.state = .stNone ∧
        tbl'.columns.map eraseTempOffset =
          tbl.columns.map eraseTempOffset ++ [eraseTempOffset ci] ∧
        (∀ j, (hj : j < tbl'.columns.length) → tbl'.columns[j].tempOffset = j)) ∧
    (spec.position.tp = .after →
      findCol tbl.columns spec.position.relativeColumn = none →
      addColumn tbl spec = .error (.noSuchColumn spec.column.name)) := by
  refine ⟨?_, ?_, ?_, ?_⟩
  · intro htp
    have hp : addColumnPosition tbl spec = .ok 0 := by simp [addColumnPosition, htp]
    obtain ⟨ci, tbl', hok, hci, hmap, _, hstamp, _⟩ :=
      addColumn_ok_description tbl spec 0 hp (Nat.zero_le _)
    exact ⟨ci, tbl', hok, by simp [hci], by simp [hci], by simp [hci],
      by simpa using hmap, hstamp⟩
  · intro cX htp hfX
    have hp : addColumnPosition tbl spec = .ok (cX.offset + 1) := by
      simp [addColumnPosition, htp, hfX]
    have hple : cX.offset + 1 ≤ tbl.columns.length := hinv cX (findCol_mem _ _ _ hfX)
    obtain ⟨ci, tbl', hok, hci, hmap, _, hstamp, _⟩ :=
      addColumn_ok_description tbl spec (cX.offset + 1) hp hple
    exact ⟨ci, tbl', hok, by simp [hci], by simp [hci], by simp [hci], hmap, hstamp⟩
  · intro htp
    have hp : addColumnPosition tbl spec = .ok tbl.columns.length := by
      simp [addColumnPosition, htp]
    obtain ⟨ci, tbl', hok, hci, hmap, _, hstamp, _⟩ :=
      addColumn_ok_description tbl spec tbl.columns.length hp le_rfl
    refine ⟨ci, tbl', hok, by simp [hci], by simp [hci], by simp [hci], ?_, hstamp⟩
    rw [hmap]
    have h1 : (tbl.columns.map eraseTempOffset).take tbl.columns.length =
        tbl.columns.map eraseTempOffset := by
      apply List.take_of_length_le
      simp
    have h2 : (tbl.columns.map eraseTempOffset).drop tbl.columns.length = [] := by
      apply List.drop_eq_nil_of_le
      simp
    rw [h1, h2]
  · intro htp hfX
    simp [addColumn, addColumnPosition, htp, hfX]

theorem C4_addColumn_insertion_positions_witness :
    ∃ ci tbl',
      addColumn
        { columns := [{ name := "a", offset := 0, tempOffset := 0, state := .public },
                      { name := "b", offset := 1, tempOffset := 0, state := .public }],
          indices := [] }
        { column := { name := "c" }, position := { tp := .after, relativeColumn := "a" } } =
        .ok (ci, tbl') ∧
      ci.name = "c" ∧ ci.offset = 2 ∧ ci.state = .stNone ∧
      tbl'.columns.map eraseTempOffset =
        ([{ name := "a", offset := 0, tempOffset := 0, state := .public },
          { name := "b", offset := 1, tempOffset := 0, state := .public }].map
            eraseTempOffset).take 1 ++
          eraseTempOffset ci ::
            ([{ name := "a", offset := 0, tempOffset := 0, state := .public },
              { name := "b", offset := 1, tempOffset := 0, state := .public }].map
                eraseTempOffset).drop 1 ∧
      (∀ j, (hj : j < tbl'.columns.length) → tbl'.columns[j].tempOffset = j) := by
  have h := (C4_addColumn_insertion_positions
      { columns := [{ name := "a", offset := 0, tempOffset := 0, state := .public },
                    { name := "b", offset := 1, tempOffset := 0, state := .public }],
        indices := [] }
      { column := { name := "c" }, position := { tp := .after, relativeColumn := "a" } }
      (by decide)).2.1
    { name := "a", offset := 0, tempOffset := 0, state := .public } rfl (by decide)
  exact h

/-- C10: under the data-model invariant that all existing `Offset` values lie
in `0..len(columns)-1`, the splice position computed by `addColumn` is at most
`len(columns)`, the slice operations succeed (no panic), and the resulting
column list has length `len(columns)+1` and consists, up to the `TempOffset`
stamping, of every original column exactly once plus the new column. -/
theorem C10_addColumn_splice_in_bounds (tbl : TableInfo) (spec : AlterSpecification) (p : Nat)
    (hinv : ∀ c ∈ tbl.columns, c.offset < tbl.columns.length)
    (hp : addColumnPosition tbl spec = .ok p) :
    p ≤ tbl.columns.length ∧
    ∃ ci tbl', addColumn tbl spec = .ok (ci, tbl') ∧
      tbl'.columns.length = tbl.columns.length + 1 ∧
      (tbl'.columns.map eraseTempOffset).Perm
        (eraseTempOffset ci :: tbl.columns.map eraseTempOffset) := by
  have hple := addColumnPosition_le tbl spec p hinv hp
  obtain ⟨ci, tbl', hok, _, hmap, hlen, _, _⟩ :=
    addColumn_ok_description tbl spec p hp hple
  refine ⟨hple, ci, tbl', hok, hlen, ?_⟩
  rw [hmap]
  have h : ((tbl.columns.map eraseTempOffset).take p ++
      eraseTempOffset ci :: (tbl.columns.map eraseTempOffset).drop p).Perm
        (eraseTempOffset ci :: ((tbl.columns.map eraseTempOffset).take p ++
          (tbl.columns.map eraseTempOffset).drop p)) := List.perm_middle
  rw [List.take_append_drop] at h
  exact h

theorem C10_addColumn_splice_in_bounds_witness :
    2 ≤ 2 ∧
    ∃ ci tbl',
      addColumn
        { columns := [{ name := "a", offset := 0, tempOffset := 0, state := .public },
                      { name := "b", offset := 1, tempOffset := 0, state := .public }],
          indices := [] }
        { column := { name := "c" }, position := { tp := .posNone } } =
        .ok (ci, tbl') ∧
      tbl'.columns.length = 3 ∧
      (tbl'.columns.map eraseTempOffset).Perm
        (eraseTempOffset ci ::
          [{ name := "a", offset := 0, tempOffset := 0, state := .public },
           { name := "b", offset := 1, tempOffset := 0, state := .public }].map
            eraseTempOffset) :=
  C10_addColumn_splice_in_bounds
    { columns := [{ name := "a", offset := 0, tempOffset := 0, state := .public },
                  { name := "b", offset := 1, tempOffset := 0, state := .public }],
      indices := [] }
    { column := { name := "c" }, position := { tp := .posNone } } 2
    (by decide) rfl

theorem offsetChangedMap_eq_reverse (cols : List ColumnInfo) :
    offsetChangedMap cols = (cols.map fun c => (c.offset, c.tempOffset)).reverse := by
  have h : ∀ (l : List ColumnInfo) (acc : List (Nat × Nat)),
      l.foldl (fun m c => (c.offset, c.tempOffset) :: m) acc =
        (l.map fun c => (c.offset, c.tempOffset)).reverse ++ acc := by
    intro l
    induction l with
    | nil => intro acc; simp
    | cons c cs ih => intro acc; simp [ih]
  simpa [offsetChangedMap] using h cols []

theorem lookup_of_pairwise_mem (l : List (Nat × Nat))
    (h : l.Pairwise fun a b => a.1 ≠ b.1) (k v : Nat) (hm : (k, v) ∈ l) :
    l.lookup k = some v := by
  induction l with
  | nil => simp at hm
  | cons kv tl ih =>
    rcases List.mem_cons.mp hm with heq | htl
    · rw [← heq]
      simp [List.lookup]
    · have hne : kv.1 ≠ k := by
        have := (List.pairwise_cons.mp h).1 (k, v) htl
        simpa using this
      have hbeq : (k == kv.1) = false := by
        simp [Ne.symm hne]
      obtain ⟨k', v'⟩ := kv
      simp only [List.lookup, hbeq]
      exact ih (List.pairwise_cons.mp h).2 htl

theorem lookup_offsetChangedMap (cols : List ColumnInfo)
    (hd : cols.Pairwise fun a b => a.offset ≠ b.offset)
    (c : ColumnInfo) (hc : c ∈ cols) :
    (offsetChangedMap cols).lookup c.offset = some c.tempOffset := by
  rw [offsetChangedMap_eq_reverse]
  apply lookup_of_pairwise_mem
  · rw [List.pairwise_reverse, List.pairwise_map]
    exact hd.imp fun h => Ne.symm h
  · rw [List.mem_reverse, List.mem_map]
    exact ⟨c, hc, rfl⟩

/-- C5: when the columns' `Offset` values are pairwise distinct,
`adjustColumnOffset` moves every column's `TempOffset` into its `Offset`
(leaving name, state and `TempOffset` untouched) and rewrites every index
column reference whose old `Offset` was held by some column to that column's
new `Offset` — no reference whose old offset was remapped is left dangling. -/
theorem C5_adjustColumnOffset_remaps (cols : List ColumnInfo) (idxs : List IndexInfo)
    (hd : cols.Pairwise fun a b => a.offset ≠ b.offset) :
    List.Forall₂ (fun c c' => c'.offset = c.tempOffset ∧ c'.name = c.name ∧
        c'.state = c.state ∧ c'.tempOffset = c.tempOffset)
      cols (adjustColumnOffset cols idxs).1 ∧
    List.Forall₂ (fun idx idx' =>
        List.Forall₂ (fun r r' =>
            ∀ c ∈ cols, c.offset = r.offset → r'.offset = c.tempOffset)
          idx.columns idx'.columns)
      idxs (adjustColumnOffset cols idxs).2 := by
  constructor
  · simp only [adjustColumnOffset]
    rw [List.forall₂_map_right_iff, List.forall₂_same]
    intro c _
    exact ⟨rfl, rfl, rfl, rfl⟩
  · simp only [adjustColumnOffset]
    rw [List.forall₂_map_right_iff, List.forall₂_same]
    intro idx _
    rw [List.forall₂_map_right_iff, List.forall₂_same]
    intro r _ c hc hoff
    rw [← hoff, lookup_offsetChangedMap cols hd c hc]

theorem C5_adjustColumnOffset_remaps_witness :
    List.Forall₂ (fun (c c' : ColumnInfo) => c'.offset = c.tempOffset ∧ c'.name = c.name ∧
        c'.state = c.state ∧ c'.tempOffset = c.tempOffset)
      ([{ name := "a", offset := 0, tempOffset := 0, state := .public },
        { name := "c", offset := 2, tempOffset := 1, state := .reorganization },
        { name := "b", offset := 1, tempOffset := 2, state := .public }] : List ColumnInfo)
      (adjustColumnOffset
        [{ name := "a", offset := 0, tempOffset := 0, state := .public },
         { name := "c", offset := 2, tempOffset := 1, state := .reorganization },
         { name := "b", offset := 1, tempOffset := 2, state := .public }]
        [{ columns := [{ offset := 1 }] }]).1 ∧
    List.Forall₂ (fun (idx idx' : IndexInfo) =>
        List.Forall₂ (fun (r r' : IndexColumn) =>
            ∀ c ∈ ([{ name := "a", offset := 0, tempOffset := 0, state := .public },
                    { name := "c", offset := 2, tempOffset := 1, state := .reorganization },
                    { name := "b", offset := 1, tempOffset := 2, state := .public }] :
                      List ColumnInfo),
              c.offset = r.offset → r'.offset = c.tempOffset)
          idx.columns idx'.columns)
      ([{ columns := [{ offset := 1 }] }] : List IndexInfo)
      (adjustColumnOffset
        [{ name := "a", offset := 0, tempOffset := 0, state := .public },
         { name := "c", offset := 2, tempOffset := 1, state := .reorganization },
         { name := "b", offset := 1, tempOffset := 2, state := .public }]
        [{ columns := [{ offset := 1 }] }]).2 :=
  C5_adjustColumnOffset_remaps
    [{ name := "a", offset := 0, tempOffset := 0, state := .public },
     { name := "c", offset := 2, tempOffset := 1, state := .reorganization },
     { name := "b", offset := 1, tempOffset := 2, state := .public }]
    [{ columns := [{ offset := 1 }] }]
    (by decide)

/-! ## Backfill claims -/

/-- C2 (exhibit of the divergence): a row that still exists and already
carries the new column's value — `txn.Get(backfillKey)` succeeds — is
nonetheless locked and re-written by the per-row backfill transaction, so a
second pass over a fully-backfilled row range performs one lock and one write
per row rather than none.  The code's own comment ("If row column doesn't
exist, we need to backfill column") and the spec's idempotence requirement
call for skipping the row when the value is present. -/
theorem C2_backfill_rewrites_already_present_value :
    backfillColumnTxn
      { rowExistsRes := .exist true, getRes := .found 7, lockOk := true, setOk := true } 7 =
      ([TxnEffect.lockKeys, TxnEffect.setColValue 7], .ok ()) ∧
    backfillColumn
      [(1, { rowExistsRes := .exist true, getRes := .found 7, lockOk := true, setOk := true })]
      7 =
      ([(1, TxnEffect.lockKeys), (1, TxnEffect.setColValue 7)], .ok ()) :=
  ⟨rfl, rfl⟩

/-- C8: a row handle whose row no longer exists when its per-row transaction
runs is skipped without error — the transaction succeeds having performed no
lock and no write — and the scan continues with the remaining rows
unaffected. -/
theorem C8_backfill_skips_vanished_row (h : Int) (rv : RowView)
    (rest : List (Int × RowView)) (d : Val)
    (hgone : rv.rowExistsRes = .exist false) :
    backfillColumnTxn rv d = ([], .ok ()) ∧
    backfillColumn ((h, rv) :: rest) d = backfillColumn rest d := by
  have h1 : backfillColumnTxn rv d = ([], .ok ()) := by
    unfold backfillColumnTxn
    rw [hgone]
  refine ⟨h1, ?_⟩
  simp [backfillColumn, h1]

theorem C8_backfill_skips_vanished_row_witness :
    backfillColumnTxn
      { rowExistsRes := .exist false, getRes := .notFound, lockOk := true, setOk := true } 5 =
      ([], .ok ()) ∧
    backfillColumn
      [(2, { rowExistsRes := .exist false, getRes := .notFound, lockOk := true, setOk := true }),
       (3, { rowExistsRes := .exist true, getRes := .notFound, lockOk := true, setOk := true })]
      5 =
      backfillColumn
        [(3, { rowExistsRes := .exist true, getRes := .notFound, lockOk := true, setOk := true })]
        5 :=
  C8_backfill_skips_vanished_row 2
    { rowExistsRes := .exist false, getRes := .notFound, lockOk := true, setOk := true }
    [(3, { rowExistsRes := .exist true, getRes := .notFound, lockOk := true, setOk := true })]
    5 rfl

/-! ## Lemmas about the job state machine -/

theorem transitionArm_eq (env : Env) (job : Job) (tbl : TableInfo) (name : String)
    (next : SchemaState) (rsv : Bool) (effs : List Effect) :
    transitionArm env job tbl name next rsv effs =
      ⟨if env.updateTableOk then .ok () else .error .updateTableErr,
       { job with schemaState := next, snapshotVer := if rsv then 0 else job.snapshotVer },
       { tbl with columns := setColState tbl.columns name next },
       effs ++ [Effect.updateTable { tbl with columns := setColState tbl.columns name next }]⟩ := by
  unfold transitionArm
  cases rsv <;> cases henv : env.updateTableOk <;> simp [henv]

theorem onColumnAdd_step_stNone (env : Env) (job : Job) (tbl : TableInfo)
    (spec : AlterSpecification) (ci : ColumnInfo)
    (hti : env.getTableInfoOk = true) (hargs : job.args = some spec)
    (hfind : findCol tbl.columns spec.column.name = some ci)
    (hst : ci.state = .stNone) (hgen : env.genSchemaVersionOk = true) :
    onColumnAdd env job tbl =
      transitionArm env job tbl spec.column.name .deleteOnly false [Effect.genSchemaVersion] := by
  simp [onColumnAdd, hti, hargs, hfind, hst, hgen]

theorem onColumnAdd_step_deleteOnly (env : Env) (job : Job) (tbl : TableInfo)
    (spec : AlterSpecification) (ci : ColumnInfo)
    (hti : env.getTableInfoOk = true) (hargs : job.args = some spec)
    (hfind : findCol tbl.columns spec.column.name = some ci)
    (hst : ci.state = .deleteOnly) (hgen : env.genSchemaVersionOk = true) :
    onColumnAdd env job tbl =
      transitionArm env job tbl spec.column.name .writeOnly false [Effect.genSchemaVersion] := by
  simp [onColumnAdd, hti, hargs, hfind, hst, hgen]

theorem onColumnAdd_step_writeOnly (env : Env) (job : Job) (tbl : TableInfo)
    (spec : AlterSpecification) (ci : ColumnInfo)
    (hti : env.getTableInfoOk = true) (hargs : job.args = some spec)
    (hfind : findCol tbl.columns spec.column.name = some ci)
    (hst : ci.state = .writeOnly) (hgen : env.genSchemaVersionOk = true) :
    onColumnAdd env job tbl =
      transitionArm env job tbl spec.column.name .reorganization true [Effect.genSchemaVersion] := by
  simp [onColumnAdd, hti, hargs, hfind, hst, hgen]

theorem onColumnAdd_step_reorganization (env : Env) (job : Job) (tbl : TableInfo)
    (spec : AlterSpecification) (ci : ColumnInfo)
    (hti : env.getTableInfoOk = true) (hargs : job.args = some spec)
    (hfind : findCol tbl.columns spec.column.name = some ci)
    (hst : ci.state = .reorganization) (hgen : env.genSchemaVersionOk = true) :
    onColumnAdd env job tbl =
      (if job.snapshotVer = 0 then
        if env.currentVersionOk then
          reorgPhase env { job with snapshotVer := env.currentVersion } tbl spec.column.name
            [Effect.genSchemaVersion, Effect.currentVersion]
        else
          ⟨.error .currentVersionErr, job, tbl,
            [Effect.genSchemaVersion, Effect.currentVersion]⟩
      else reorgPhase env job tbl spec.column.name [Effect.genSchemaVersion]) := by
  simp [onColumnAdd, hti, hargs, hfind, hst, hgen]

theorem adjustColumnOffset_fst (cols : List ColumnInfo) (idxs : List IndexInfo) :
    (adjustColumnOffset cols idxs).1 = cols.map fun c => { c with offset := c.tempOffset } := by
  simp [adjustColumnOffset]

/-- The column found after the `Reorganization → Public` metadata rewrite:
offsets folded, state set to `Public`. -/
theorem findCol_after_public (tbl : TableInfo) (name : String) (ci : ColumnInfo)
    (hfind : findCol tbl.columns name = some ci) :
    findCol (publicizedTable tbl name).columns name =
      some { ci with offset := ci.tempOffset, state := .public } := by
  show findCol (setColState (adjustColumnOffset tbl.columns tbl.indices).1 name .public) name = _
  rw [findCol_setColState, adjustColumnOffset_fst,
    findCol_map_of_name tbl.columns name (fun c => { c with offset := c.tempOffset })
      (fun c => rfl), hfind]
  rfl

/-- C6: every validation failure of `onColumnAdd` — argument decode failure,
an `after X` position naming a nonexistent column, or the target column
already existing in state `Public` — cancels the job and returns an error
without calling `GenSchemaVersion` or `UpdateTable` and without touching the
table metadata. -/
theorem C6_validation_failures_cancel (env : Env) (job : Job) (tbl : TableInfo)
    (hti : env.getTableInfoOk = true) :
    (job.args = none →
      onColumnAdd env job tbl =
        ⟨.error .decodeArgsErr, { job with state := .cancelled }, tbl, []⟩) ∧
    (∀ spec, job.args = some spec → spec.position.tp = .after →
      findCol tbl.columns spec.column.name = none →
      findCol tbl.columns spec.position.relativeColumn = none →
      onColumnAdd env job tbl =
        ⟨.error (.noSuchColumn spec.column.name), { job with state := .cancelled }, tbl, []⟩) ∧
    (∀ spec ci, job.args = some spec →
      findCol tbl.columns spec.column.name = some ci → ci.state = .public →
      onColumnAdd env job tbl =
        ⟨.error (.columnAlreadyExists spec.column.name), { job with state := .cancelled },
          tbl, []⟩) := by
  refine ⟨?_, ?_, ?_⟩
  · intro hargs
    simp [onColumnAdd, hti, hargs]
  · intro spec hargs htp hfc hfrel
    simp [onColumnAdd, hti, hargs, hfc, addColumn, addColumnPosition, htp, hfrel]
  · intro spec ci hargs hfc hpub
    simp [onColumnAdd, hti, hargs, hfc, hpub]

theorem C6_validation_failures_cancel_witness :
    (onColumnAdd envOk (jobWith none 0) tblA =
      ⟨.error .decodeArgsErr, { jobWith none 0 with state := .cancelled }, tblA, []⟩) ∧
    (onColumnAdd envOk (jobWith (some specAfterZZ) 0) tblA =
      ⟨.error (.noSuchColumn "c"),
        { jobWith (some specAfterZZ) 0 with state := .cancelled }, tblA, []⟩) ∧
    (onColumnAdd envOk (jobWith (some specDupA) 0) tblA =
      ⟨.error (.columnAlreadyExists "a"),
        { jobWith (some specDupA) 0 with state := .cancelled }, tblA, []⟩) := by
  refine ⟨?_, ?_, ?_⟩
  · exact (C6_validation_failures_cancel envOk (jobWith none 0) tblA rfl).1 rfl
  · exact (C6_validation_failures_cancel envOk (jobWith (some specAfterZZ) 0) tblA rfl).2.1
      specAfterZZ rfl rfl rfl rfl
  · exact (C6_validation_failures_cancel envOk (jobWith (some specDupA) 0) tblA rfl).2.2
      specDupA colPubA rfl rfl rfl

theorem reorgPhase_cases (env : Env) (j : Job) (tbl : TableInfo) (name : String)
    (effs : List Effect) (hgt : env.getTableOk = true) :
    (env.reorg = .timeout →
      reorgPhase env j tbl name effs =
        ⟨.ok (), j, tbl, effs ++ [Effect.runReorg j.snapshotVer]⟩) ∧
    (env.reorg = .failure →
      reorgPhase env j tbl name effs =
        ⟨.error .reorgErr, j, tbl, effs ++ [Effect.runReorg j.snapshotVer]⟩) ∧
    (env.reorg = .success →
      reorgPhase env j tbl name effs =
        ⟨if env.updateTableOk then .ok () else .error .updateTableErr,
         if env.updateTableOk then { j with schemaState := .public, state := .done } else j,
         publicizedTable tbl name,
         effs ++ [Effect.runReorg j.snapshotVer,
                  Effect.updateTable (publicizedTable tbl name)]⟩) := by
  refine ⟨?_, ?_, ?_⟩ <;> intro hr <;>
    cases hupd : env.updateTableOk <;> simp [reorgPhase, hgt, hr, hupd]

/-- C7: in the `Reorganization` state, the distinguished reorg-timeout outcome
makes `onColumnAdd` return success with no transition — table metadata is
untouched, the column stays in `Reorganization`, the job's `State` and
`SchemaState` are unchanged and `UpdateTable` is never called — while any
other runner error is returned as a failure of the invocation. -/
theorem C7_reorg_timeout_no_transition (env : Env) (job : Job) (tbl : TableInfo)
    (spec : AlterSpecification) (ci : ColumnInfo)
    (hti : env.getTableInfoOk = true) (hargs : job.args = some spec)
    (hfind : findCol tbl.columns spec.column.name = some ci)
    (hst : ci.state = .reorganization) (hgen : env.genSchemaVersionOk = true)
    (hcv : env.currentVersionOk = true) (hgt : env.getTableOk = true) :
    (env.reorg = .timeout →
      (onColumnAdd env job tbl).res = .ok () ∧
      (onColumnAdd env job tbl).tbl = tbl ∧
      colStateIn (onColumnAdd env job tbl).tbl spec.column.name = some .reorganization ∧
      (onColumnAdd env job tbl).job.state = job.state ∧
      (onColumnAdd env job tbl).job.schemaState = job.schemaState ∧
      (∀ t, Effect.updateTable t ∉ (onColumnAdd env job tbl).effects)) ∧
    (env.reorg = .failure →
      (onColumnAdd env job tbl).res = .error .reorgErr) := by
  rw [onColumnAdd_step_reorganization env job tbl spec ci hti hargs hfind hst hgen]
  by_cases hsv : job.snapshotVer = 0
  · simp only [hsv, if_true, hcv, if_pos]
    constructor
    · intro hr
      rw [((reorgPhase_cases env { job with snapshotVer := env.currentVersion } tbl
        spec.column.name [Effect.genSchemaVersion, Effect.currentVersion] hgt).1 hr)]
      simpa [colStateIn, hfind] using hst
    · intro hr
      rw [((reorgPhase_cases env { job with snapshotVer := env.currentVersion } tbl
        spec.column.name [Effect.genSchemaVersion, Effect.currentVersion] hgt).2.1 hr)]
  · simp only [hsv, if_false]
    constructor
    · intro hr
      rw [((reorgPhase_cases env job tbl spec.column.name [Effect.genSchemaVersion]
        hgt).1 hr)]
      simpa [colStateIn, hfind] using hst
    · intro hr
      rw [((reorgPhase_cases env job tbl spec.column.name [Effect.genSchemaVersion]
        hgt).2.1 hr)]

theorem C7_reorg_timeout_no_transition_witness :
    ((onColumnAdd { envOk with reorg := .timeout }
        (jobWith (some specDupA) 5)
        { columns := [{ name := "a", offset := 0, tempOffset := 0,
                        state := .reorganization }], indices := [] }).res = .ok () ∧
      (onColumnAdd { envOk with reorg := .timeout }
        (jobWith (some specDupA) 5)
        { columns := [{ name := "a", offset := 0, tempOffset := 0,
                        state := .reorganization }], indices := [] }).tbl =
        { columns := [{ name := "a", offset := 0, tempOffset := 0,
                        state := .reorganization }], indices := [] } ∧
      colStateIn
        (onColumnAdd { envOk with reorg := .timeout }
          (jobWith (some specDupA) 5)
          { columns := [{ name := "a", offset := 0, tempOffset := 0,
                          state := .reorganization }], indices := [] }).tbl "a" =
        some .reorganization ∧
      (onColumnAdd { envOk with reorg := .timeout }
        (jobWith (some specDupA) 5)
        { columns := [{ name := "a", offset := 0, tempOffset := 0,
                        state := .reorganization }], indices := [] }).job.state =
        (jobWith (some specDupA) 5).state ∧
      (onColumnAdd { envOk with reorg := .timeout }
        (jobWith (some specDupA) 5)
        { columns := [{ name := "a", offset := 0, tempOffset := 0,
                        state := .reorganization }], indices := [] }).job.schemaState =
        (jobWith (some specDupA) 5).schemaState ∧
      (∀ t, Effect.updateTable t ∉
        (onColumnAdd { envOk with reorg := .timeout }
          (jobWith (some specDupA) 5)
          { columns := [{ name := "a", offset := 0, tempOffset := 0,
                          state := .reorganization }], indices := [] }).effects)) :=
  (C7_reorg_timeout_no_transition { envOk with reorg := .timeout }
    (jobWith (some specDupA) 5)
    { columns := [{ name := "a", offset := 0, tempOffset := 0,
                    state := .reorganization }], indices := [] }
    specDupA
    { name := "a", offset := 0, tempOffset := 0, state := .reorganization }
    rfl rfl rfl rfl rfl rfl rfl).1 rfl

/-- C3: the `WriteOnly → Reorganization` transition resets `job.SnapshotVer`
to `0`; in the `Reorganization` state the store's current version is read and
assigned to `job.SnapshotVer` only when it is `0`, so an invocation arriving
with a nonzero anchored version never re-reads the store's version and the
reorg runner is bound to the anchored version. -/
theorem C3_snapshotVer_anchoring (env : Env) (job : Job) (tbl : TableInfo)
    (spec : AlterSpecification) (ci : ColumnInfo)
    (hti : env.getTableInfoOk = true) (hargs : job.args = some spec)
    (hfind : findCol tbl.columns spec.column.name = some ci)
    (hgen : env.genSchemaVersionOk = true) :
    (ci.state = .writeOnly →
      (onColumnAdd env job tbl).job.snapshotVer = 0 ∧
      (onColumnAdd env job tbl).job.schemaState = .reorganization) ∧
    (ci.state = .reorganization → job.snapshotVer = 0 → env.currentVersionOk = true →
      env.getTableOk = true →
      (onColumnAdd env job tbl).job.snapshotVer = env.currentVersion ∧
      Effect.currentVersion ∈ (onColumnAdd env job tbl).effects ∧
      Effect.runReorg env.currentVersion ∈ (onColumnAdd env job tbl).effects) ∧
    (ci.state = .reorganization → job.snapshotVer ≠ 0 → env.getTableOk = true →
      (onColumnAdd env job tbl).job.snapshotVer = job.snapshotVer ∧
      Effect.currentVersion ∉ (onColumnAdd env job tbl).effects ∧
      Effect.runReorg job.snapshotVer ∈ (onColumnAdd env job tbl).effects) := by
  refine ⟨?_, ?_, ?_⟩
  · intro hst
    rw [onColumnAdd_step_writeOnly env job tbl spec ci hti hargs hfind hst hgen,
      transitionArm_eq]
    cases hupd : env.updateTableOk <;> simp [hupd]
  · intro hst hsv hcv hgt
    rw [onColumnAdd_step_reorganization env job tbl spec ci hti hargs hfind hst hgen]
    simp only [hsv, if_true, hcv, if_pos]
    obtain ⟨hto, hfl, hsc⟩ := reorgPhase_cases env { job with snapshotVer := env.currentVersion }
      tbl spec.column.name [Effect.genSchemaVersion, Effect.currentVersion] hgt
    cases hr : env.reorg
    · rw [hsc hr]
      cases hupd : env.updateTableOk <;> simp [hupd]
    · rw [hto hr]
      simp
    · rw [hfl hr]
      simp
  · intro hst hsv hgt
    rw [onColumnAdd_step_reorganization env job tbl spec ci hti hargs hfind hst hgen]
    simp only [hsv, if_false]
    obtain ⟨hto, hfl, hsc⟩ := reorgPhase_cases env job tbl spec.column.name
      [Effect.genSchemaVersion] hgt
    cases hr : env.reorg
    · rw [hsc hr]
      cases hupd : env.updateTableOk <;> simp [hupd]
    · rw [hto hr]
      simp
    · rw [hfl hr]
      simp

theorem C3_snapshotVer_anchoring_witness :
    ((onColumnAdd envOk (jobWith (some specDupA) 7)
        { columns := [{ name := "a", offset := 0, tempOffset := 0,
                        state := .reorganization }], indices := [] }).job.snapshotVer = 7 ∧
      Effect.currentVersion ∉
        (onColumnAdd envOk (jobWith (some specDupA) 7)
          { columns := [{ name := "a", offset := 0, tempOffset := 0,
                          state := .reorganization }], indices := [] }).effects ∧
      Effect.runReorg 7 ∈
        (onColumnAdd envOk (jobWith (some specDupA) 7)
          { columns := [{ name := "a", offset := 0, tempOffset := 0,
                          state := .reorganization }], indices := [] }).effects) :=
  (C3_snapshotVer_anchoring envOk (jobWith (some specDupA) 7)
    { columns := [{ name := "a", offset := 0, tempOffset := 0,
                    state := .reorganization }], indices := [] }
    specDupA
    { name := "a", offset := 0, tempOffset := 0, state := .reorganization }
    rfl rfl rfl rfl).2.2 rfl (by decide) rfl

/-- C9: in the `Reorganization` state of a running job, `onColumnAdd` marks
the job `Done` with `SchemaState = Public` only on the path where the reorg
succeeded and `UpdateTable` of the `Public` metadata succeeded (and then that
persisted table is in the effect trace); every error return leaves
`job.State` at its prior value. -/
theorem C9_done_only_after_public_update (env : Env) (job : Job) (tbl : TableInfo)
    (spec : AlterSpecification) (ci : ColumnInfo)
    (hti : env.getTableInfoOk = true) (hargs : job.args = some spec)
    (hfind : findCol tbl.columns spec.column.name = some ci)
    (hst : ci.state = .reorganization) (hjs : job.state = .running) :
    ((onColumnAdd env job tbl).job.state = .done →
      env.reorg = .success ∧ env.updateTableOk = true ∧
      (onColumnAdd env job tbl).res = .ok () ∧
      (onColumnAdd env job tbl).job.schemaState = .public ∧
      Effect.updateTable (onColumnAdd env job tbl).tbl ∈ (onColumnAdd env job tbl).effects ∧
      colStateIn (onColumnAdd env job tbl).tbl spec.column.name = some .public) ∧
    (∀ e, (onColumnAdd env job tbl).res = .error e →
      (onColumnAdd env job tbl).job.state = .running ∧
      (onColumnAdd env job tbl).job.schemaState = job.schemaState) := by
  by_cases hgen : env.genSchemaVersionOk = true
  · rw [onColumnAdd_step_reorganization env job tbl spec ci hti hargs hfind hst hgen]
    have hpub : colStateIn (publicizedTable tbl spec.column.name) spec.column.name =
        some .public := by
      simp [colStateIn, findCol_after_public tbl spec.column.name ci hfind]
    by_cases hsv : job.snapshotVer = 0
    · simp only [hsv, if_true, if_pos]
      by_cases hcv : env.currentVersionOk = true
      · simp only [hcv, if_true, if_pos]
        by_cases hgt : env.getTableOk = true
        · obtain ⟨hto, hfl, hsc⟩ := reorgPhase_cases env
            { job with snapshotVer := env.currentVersion } tbl spec.column.name
            [Effect.genSchemaVersion, Effect.currentVersion] hgt
          cases hr : env.reorg
          · rw [hsc hr]
            cases hupd : env.updateTableOk <;> simp [hupd, hjs, hr, hpub]
          · rw [hto hr]
            simp [hjs]
          · rw [hfl hr]
            simp [hjs]
        · have hgt' : env.getTableOk = false := by
            cases h : env.getTableOk
            · rfl
            · exact absurd h hgt
          simp [reorgPhase, hgt', hjs]
      · have hcv' : env.currentVersionOk = false := by
          cases h : env.currentVersionOk
          · rfl
          · exact absurd h hcv
        simp [hcv', hjs]
    · simp only [hsv, if_false]
      by_cases hgt : env.getTableOk = true
      · obtain ⟨hto, hfl, hsc⟩ := reorgPhase_cases env job tbl spec.column.name
          [Effect.genSchemaVersion] hgt
        cases hr : env.reorg
        · rw [hsc hr]
          cases hupd : env.updateTableOk <;> simp [hupd, hjs, hr, hpub]
        · rw [hto hr]
          simp [hjs]
        · rw [hfl hr]
          simp [hjs]
      · have hgt' : env.getTableOk = false := by
          cases h : env.getTableOk
          · rfl
          · exact absurd h hgt
        simp [reorgPhase, hgt', hjs]
  · have hgen' : env.genSchemaVersionOk = false := by
      cases h : env.genSchemaVersionOk
      · rfl
      · exact absurd h hgen
    simp [onColumnAdd, hti, hargs, hfind, hst, hgen', hjs]

theorem C9_done_only_after_public_update_witness :
    envOk.reorg = .success ∧ envOk.updateTableOk = true ∧
    (onColumnAdd envOk (jobWith (some specDupA) 3)
      { columns := [{ name := "a", offset := 0, tempOffset := 0,
                      state := .reorganization }], indices := [] }).res = .ok () ∧
    (onColumnAdd envOk (jobWith (some specDupA) 3)
      { columns := [{ name := "a", offset := 0, tempOffset := 0,
                      state := .reorganization }], indices := [] }).job.schemaState =
      .public ∧
    Effect.updateTable
        (onColumnAdd envOk (jobWith (some specDupA) 3)
          { columns := [{ name := "a", offset := 0, tempOffset := 0,
                          state := .reorganization }], indices := [] }).tbl ∈
      (onColumnAdd envOk (jobWith (some specDupA) 3)
        { columns := [{ name := "a", offset := 0, tempOffset := 0,
                        state := .reorganization }], indices := [] }).effects ∧
    colStateIn
      (onColumnAdd envOk (jobWith (some specDupA) 3)
        { columns := [{ name := "a", offset := 0, tempOffset := 0,
                        state := .reorganization }], indices := [] }).tbl "a" =
      some .public :=
  (C9_done_only_after_public_update envOk (jobWith (some specDupA) 3)
    { columns := [{ name := "a", offset := 0, tempOffset := 0,
                    state := .reorganization }], indices := [] }
    specDupA
    { name := "a", offset := 0, tempOffset := 0, state := .reorganization }
    rfl rfl rfl rfl rfl).1 (by decide)

theorem findCol_setColState_found (cols : List ColumnInfo) (name : String)
    (st : SchemaState) (ci : ColumnInfo) (hfind : findCol cols name = some ci) :
    findCol (setColState cols name st) name = some { ci with state := st } := by
  rw [findCol_setColState, hfind]
  rfl

theorem findCol_stamp_append (cols : List ColumnInfo) (c : ColumnInfo) (n : String)
    (hnone : findCol cols n = none) (hcn : c.name = n) :
    findCol (stampTempOffsets (cols ++ [c])) n = some { c with tempOffset := cols.length } := by
  unfold stampTempOffsets
  rw [stampTempOffsetsFrom_append,
    findCol_append_of_none _ _ _
      (findCol_stampTempOffsetsFrom_of_none 0 cols n ((findCol_eq_none_iff cols n).mp hnone))]
  simp [stampTempOffsetsFrom, findCol, hcn]

/-- Running `onColumnAdd` on a table that does not yet contain the column, with the
default insertion position: the column is created (state `None`) and the
`None → DeleteOnly` arm runs on the extended table. -/
theorem onColumnAdd_step_fresh (env : Env) (job : Job) (tbl : TableInfo)
    (spec : AlterSpecification)
    (hti : env.getTableInfoOk = true) (hargs : job.args = some spec)
    (hfresh : findCol tbl.columns spec.column.name = none)
    (htp : spec.position.tp = .posNone)
    (hgen : env.genSchemaVersionOk = true) :
    onColumnAdd env job tbl =
      transitionArm env job
        { tbl with columns := (stampTempOffsets (tbl.columns ++
            [{ name := spec.column.name, offset := tbl.columns.length, tempOffset := 0,
               state := .stNone, defaultValue := spec.column.defaultValue }])) }
        spec.column.name .deleteOnly false [Effect.genSchemaVersion] := by
  have hp : addColumnPosition tbl spec = .ok tbl.columns.length := by
    simp [addColumnPosition, htp]
  have hadd := addColumn_eq_ok tbl spec tbl.columns.length hp le_rfl
  rw [List.take_length, List.drop_length] at hadd
  simp [onColumnAdd, hti, hargs, hfresh, hadd, hgen]

/-- One all-successful invocation on a table already containing the column in
a non-`Public` state: the result is success, the job's arguments are
preserved, the column advances exactly one ladder step, and the job is marked
`Done` exactly on the `Reorganization → Public` step. -/
theorem onColumnAdd_allOk_found (env : Env) (job : Job) (tbl : TableInfo)
    (spec : AlterSpecification) (ci : ColumnInfo)
    (henv : env.allOk) (hargs : job.args = some spec)
    (hfind : findCol tbl.columns spec.column.name = some ci)
    (hnp : ci.state ≠ .public) :
    (onColumnAdd env job tbl).res = .ok () ∧
    (onColumnAdd env job tbl).job.args = some spec ∧
    (∃ ci', findCol (onColumnAdd env job tbl).tbl.columns spec.column.name = some ci' ∧
      ci'.state = nextState ci.state) ∧
    (onColumnAdd env job tbl).job.state =
      (if ci.state = .reorganization then .done else job.state) := by
  obtain ⟨hti, hgen, hupd, hcv, hgt, hreorg⟩ := henv
  cases hst : ci.state with
  | public => exact absurd hst hnp
  | stNone =>
    rw [onColumnAdd_step_stNone env job tbl spec ci hti hargs hfind hst hgen,
      transitionArm_eq]
    refine ⟨by simp [hupd], by simp [hargs], ⟨{ ci with state := .deleteOnly }, ?_, by simp [nextState]⟩, by simp⟩
    exact findCol_setColState_found tbl.columns spec.column.name .deleteOnly ci hfind
  | deleteOnly =>
    rw [onColumnAdd_step_deleteOnly env job tbl spec ci hti hargs hfind hst hgen,
      transitionArm_eq]
    refine ⟨by simp [hupd], by simp [hargs], ⟨{ ci with state := .writeOnly }, ?_, by simp [nextState]⟩, by simp⟩
    exact findCol_setColState_found tbl.columns spec.column.name .writeOnly ci hfind
  | writeOnly =>
    rw [onColumnAdd_step_writeOnly env job tbl spec ci hti hargs hfind hst hgen,
      transitionArm_eq]
    refine ⟨by simp [hupd], by simp [hargs], ⟨{ ci with state := .reorganization }, ?_, by simp [nextState]⟩, by simp⟩
    exact findCol_setColState_found tbl.columns spec.column.name .reorganization ci hfind
  | reorganization =>
    rw [onColumnAdd_step_reorganization env job tbl spec ci hti hargs hfind hst hgen]
    by_cases hsv : job.snapshotVer = 0
    · simp only [hsv, if_true, hcv, if_pos]
      rw [(reorgPhase_cases env { job with snapshotVer := env.currentVersion } tbl
        spec.column.name [Effect.genSchemaVersion, Effect.currentVersion] hgt).2.2 hreorg]
      refine ⟨by simp [hupd], by simp [hupd, hargs],
        ⟨{ ci with offset := ci.tempOffset, state := .public },
          findCol_after_public tbl spec.column.name ci hfind, by simp [nextState]⟩,
        by simp [hupd]⟩
    · simp only [hsv, if_false]
      rw [(reorgPhase_cases env job tbl spec.column.name [Effect.genSchemaVersion]
        hgt).2.2 hreorg]
      refine ⟨by simp [hupd], by simp [hupd, hargs],
        ⟨{ ci with offset := ci.tempOffset, state := .public },
          findCol_after_public tbl spec.column.name ci hfind, by simp [nextState]⟩,
        by simp [hupd]⟩

/-- One all-successful invocation on a table not yet containing the column
(default position): the column is created in state `None` and advanced to
`DeleteOnly`. -/
theorem onColumnAdd_allOk_fresh (env : Env) (job : Job) (tbl : TableInfo)
    (spec : AlterSpecification)
    (henv : env.allOk) (hargs : job.args = some spec)
    (hfresh : findCol tbl.columns spec.column.name = none)
    (htp : spec.position.tp = .posNone) :
    (onColumnAdd env job tbl).res = .ok () ∧
    (onColumnAdd env job tbl).job.args = some spec ∧
    (onColumnAdd env job tbl).job.state = job.state ∧
    (∃ ci', findCol (onColumnAdd env job tbl).tbl.columns spec.column.name = some ci' ∧
      ci'.state = .deleteOnly) := by
  obtain ⟨hti, hgen, hupd, hcv, hgt, hreorg⟩ := henv
  rw [onColumnAdd_step_fresh env job tbl spec hti hargs hfresh htp hgen, transitionArm_eq]
  have hf1 : findCol
      (stampTempOffsets (tbl.columns ++
        [{ name := spec.column.name, offset := tbl.columns.length, tempOffset := 0,
           state := .stNone, defaultValue := spec.column.defaultValue }]))
      spec.column.name =
      some { name := spec.column.name, offset := tbl.columns.length,
             tempOffset := tbl.columns.length, state := .stNone,
             defaultValue := spec.column.defaultValue } :=
    findCol_stamp_append tbl.columns _ spec.column.name hfresh rfl
  refine ⟨by simp [hupd], by simp [hargs], by simp, ?_⟩
  refine ⟨{ name := spec.column.name, offset := tbl.columns.length,
            tempOffset := tbl.columns.length, state := .deleteOnly,
            defaultValue := spec.column.defaultValue }, ?_, rfl⟩
  have := findCol_setColState_found
    (stampTempOffsets (tbl.columns ++
      [{ name := spec.column.name, offset := tbl.columns.length, tempOffset := 0,
         state := .stNone, defaultValue := spec.column.defaultValue }]))
    spec.column.name .deleteOnly _ hf1
  simpa using this

theorem runN_succ (env : Env) (n : Nat) (j : Job) (tbl : TableInfo) :
    runN env (n + 1) (j, tbl) =
      runN env n ((onColumnAdd env j tbl).job, (onColumnAdd env j tbl).tbl) := rfl

theorem runN_zero (env : Env) (s : Job × TableInfo) : runN env 0 s = s := rfl

/-- C1: driven by repeated invocation, an add-column job takes its column
through exactly `None → DeleteOnly → WriteOnly → Reorganization → Public` in
order: (a) any single invocation moves the column's state at most one ladder
step and only to the successor; (b) a successful invocation that changed the
phase called `UpdateTable` with the returned `TableInfo` (persisting the new
phase) before returning; (c) in an all-successful environment each invocation
advances exactly one step; (d) from a table without the column, the column is
created in state `None` and four invocations drive it `DeleteOnly`,
`WriteOnly`, `Reorganization`, `Public`, finishing the job. -/
theorem C1_phase_ladder (env : Env) (job : Job) (tbl : TableInfo)
    (spec : AlterSpecification)
    (hti : env.getTableInfoOk = true) (hargs : job.args = some spec) :
    (∀ ci, findCol tbl.columns spec.column.name = some ci → ci.state ≠ .public →
      ∃ ci', findCol (onColumnAdd env job tbl).tbl.columns spec.column.name = some ci' ∧
        (ci'.state = ci.state ∨ ci'.state = nextState ci.state)) ∧
    (∀ ci, findCol tbl.columns spec.column.name = some ci → ci.state ≠ .public →
      (onColumnAdd env job tbl).res = .ok () →
      colStateIn (onColumnAdd env job tbl).tbl spec.column.name ≠ some ci.state →
      Effect.updateTable (onColumnAdd env job tbl).tbl ∈ (onColumnAdd env job tbl).effects ∧
      colStateIn (onColumnAdd env job tbl).tbl spec.column.name =
        some (nextState ci.state)) ∧
    (∀ ci, findCol tbl.columns spec.column.name = some ci → ci.state ≠ .public →
      env.allOk →
      (onColumnAdd env job tbl).res = .ok () ∧
      colStateIn (onColumnAdd env job tbl).tbl spec.column.name =
        some (nextState ci.state)) ∧
    (findCol tbl.columns spec.column.name = none → spec.position.tp = .posNone →
      env.allOk →
      (∃ ci₀ tbl₀, addColumn tbl spec = .ok (ci₀, tbl₀) ∧ ci₀.state = .stNone) ∧
      colStateIn (runN env 1 (job, tbl)).2 spec.column.name = some .deleteOnly ∧
      colStateIn (runN env 2 (job, tbl)).2 spec.column.name = some .writeOnly ∧
      colStateIn (runN env 3 (job, tbl)).2 spec.column.name = some .reorganization ∧
      colStateIn (runN env 4 (job, tbl)).2 spec.column.name = some .public ∧
      (runN env 4 (job, tbl)).1.state = .done) := by
  refine ⟨?_, ?_, ?_, ?_⟩
  · -- (a) at most one ladder step
    intro ci hfind hnp
    by_cases hgen : env.genSchemaVersionOk = true
    · cases hst : ci.state with
      | public => exact absurd hst hnp
      | stNone =>
        rw [onColumnAdd_step_stNone env job tbl spec ci hti hargs hfind hst hgen,
          transitionArm_eq]
        exact ⟨{ ci with state := .deleteOnly },
          findCol_setColState_found tbl.columns spec.column.name .deleteOnly ci hfind,
          Or.inr rfl⟩
      | deleteOnly =>
        rw [onColumnAdd_step_deleteOnly env job tbl spec ci hti hargs hfind hst hgen,
          transitionArm_eq]
        exact ⟨{ ci with state := .writeOnly },
          findCol_setColState_found tbl.columns spec.column.name .writeOnly ci hfind,
          Or.inr rfl⟩
      | writeOnly =>
        rw [onColumnAdd_step_writeOnly env job tbl spec ci hti hargs hfind hst hgen,
          transitionArm_eq]
        exact ⟨{ ci with state := .reorganization },
          findCol_setColState_found tbl.columns spec.column.name .reorganization ci hfind,
          Or.inr rfl⟩
      | reorganization =>
        rw [onColumnAdd_step_reorganization env job tbl spec ci hti hargs hfind hst hgen]
        have key : ∀ (j : Job) (effs : List Effect),
            ∃ ci', findCol (reorgPhase env j tbl spec.column.name effs).tbl.columns
                spec.column.name = some ci' ∧
              (ci'.state = SchemaState.reorganization ∨ ci'.state = SchemaState.public) := by
          intro j effs
          by_cases hgt : env.getTableOk = true
          · obtain ⟨hto, hfl, hsc⟩ := reorgPhase_cases env j tbl spec.column.name effs hgt
            cases hr : env.reorg
            · rw [hsc hr]
              exact ⟨{ ci with offset := ci.tempOffset, state := .public },
                findCol_after_public tbl spec.column.name ci hfind, Or.inr rfl⟩
            · rw [hto hr]
              exact ⟨ci, hfind, Or.inl hst⟩
            · rw [hfl hr]
              exact ⟨ci, hfind, Or.inl hst⟩
          · have hgt' : env.getTableOk = false := by
              cases h : env.getTableOk
              · rfl
              · exact absurd h hgt
            have hr : reorgPhase env j tbl spec.column.name effs =
                ⟨.error .getTableErr, j, tbl, effs⟩ := by
              simp [reorgPhase, hgt']
            rw [hr]
            exact ⟨ci, hfind, Or.inl hst⟩
        by_cases hsv : job.snapshotVer = 0
        · simp only [hsv, if_true]
          by_cases hcv : env.currentVersionOk = true
          · simp only [hcv, if_true]
            exact key { job with snapshotVer := env.currentVersion }
              [Effect.genSchemaVersion, Effect.currentVersion]
          · have hcv' : env.currentVersionOk = false := by
              cases h : env.currentVersionOk
              · rfl
              · exact absurd h hcv
            simp only [hcv', Bool.false_eq_true, if_false]
            exact ⟨ci, hfind, Or.inl hst⟩
        · simp only [hsv, if_false]
          exact key job [Effect.genSchemaVersion]
    · have hgen' : env.genSchemaVersionOk = false := by
        cases h : env.genSchemaVersionOk
        · rfl
        · exact absurd h hgen
      have hr : onColumnAdd env job tbl =
          ⟨.error .genSchemaVersionErr, job, tbl, [Effect.genSchemaVersion]⟩ := by
        simp [onColumnAdd, hti, hargs, hfind, hnp, hgen']
      rw [hr]
      exact ⟨ci, hfind, Or.inl rfl⟩
  · -- (b) a successful phase change was persisted through UpdateTable
    intro ci hfind hnp hres hch
    by_cases hgen : env.genSchemaVersionOk = true
    · cases hst : ci.state with
      | public => exact absurd hst hnp
      | stNone =>
        rw [onColumnAdd_step_stNone env job tbl spec ci hti hargs hfind hst hgen,
          transitionArm_eq] at hres hch ⊢
        by_cases hupd : env.updateTableOk = true
        · constructor
          · simp
          · simp [colStateIn, nextState,
              findCol_setColState_found tbl.columns spec.column.name .deleteOnly ci hfind]
        · have hupd' : env.updateTableOk = false := by
            cases h : env.updateTableOk
            · rfl
            · exact absurd h hupd
          simp [hupd'] at hres
      | deleteOnly =>
        rw [onColumnAdd_step_deleteOnly env job tbl spec ci hti hargs hfind hst hgen,
          transitionArm_eq] at hres hch ⊢
        by_cases hupd : env.updateTableOk = true
        · constructor
          · simp
          · simp [colStateIn, nextState,
              findCol_setColState_found tbl.columns spec.column.name .writeOnly ci hfind]
        · have hupd' : env.updateTableOk = false := by
            cases h : env.updateTableOk
            · rfl
            · exact absurd h hupd
          simp [hupd'] at hres
      | writeOnly =>
        rw [onColumnAdd_step_writeOnly env job tbl spec ci hti hargs hfind hst hgen,
          transitionArm_eq] at hres hch ⊢
        by_cases hupd : env.updateTableOk = true
        · constructor
          · simp
          · simp [colStateIn, nextState,
              findCol_setColState_found tbl.columns spec.column.name .reorganization ci hfind]
        · have hupd' : env.updateTableOk = false := by
            cases h : env.updateTableOk
            · rfl
            · exact absurd h hupd
          simp [hupd'] at hres
      | reorganization =>
        rw [onColumnAdd_step_reorganization env job tbl spec ci hti hargs hfind hst
          hgen] at hres hch ⊢
        rw [hst] at hch
        have key2 : ∀ (j : Job) (effs : List Effect),
            (reorgPhase env j tbl spec.column.name effs).res = .ok () →
            colStateIn (reorgPhase env j tbl spec.column.name effs).tbl
              spec.column.name ≠ some SchemaState.reorganization →
            Effect.updateTable (reorgPhase env j tbl spec.column.name effs).tbl ∈
              (reorgPhase env j tbl spec.column.name effs).effects ∧
            colStateIn (reorgPhase env j tbl spec.column.name effs).tbl
              spec.column.name = some SchemaState.public := by
          intro j effs hres' hch'
          by_cases hgt : env.getTableOk = true
          · obtain ⟨hto, hfl, hsc⟩ := reorgPhase_cases env j tbl spec.column.name effs hgt
            cases hr : env.reorg
            · rw [hsc hr] at hres' hch' ⊢
              by_cases hupd : env.updateTableOk = true
              · constructor
                · simp
                · simp [colStateIn, findCol_after_public tbl spec.column.name ci hfind]
              · have hupd' : env.updateTableOk = false := by
                  cases h : env.updateTableOk
                  · rfl
                  · exact absurd h hupd
                simp [hupd'] at hres'
            · rw [hto hr] at hres' hch' ⊢
              exact absurd (by simp [colStateIn, hfind, hst]) hch'
            · rw [hfl hr] at hres'
              simp at hres'
          · have hgt' : env.getTableOk = false := by
              cases h : env.getTableOk
              · rfl
              · exact absurd h hgt
            have hr : reorgPhase env j tbl spec.column.name effs =
                ⟨.error .getTableErr, j, tbl, effs⟩ := by
              simp [reorgPhase, hgt']
            rw [hr] at hres'
            simp at hres'
        by_cases hsv : job.snapshotVer = 0
        · simp only [hsv, if_true] at hres hch ⊢
          by_cases hcv : env.currentVersionOk = true
          · simp only [hcv, if_true] at hres hch ⊢
            exact key2 { job with snapshotVer := env.currentVersion }
              [Effect.genSchemaVersion, Effect.currentVersion] hres hch
          · have hcv' : env.currentVersionOk = false := by
              cases h : env.currentVersionOk
              · rfl
              · exact absurd h hcv
            simp only [hcv', Bool.false_eq_true, if_false] at hres
            simp at hres
        · simp only [hsv, if_false] at hres hch ⊢
          exact key2 job [Effect.genSchemaVersion] hres hch
    · have hgen' : env.genSchemaVersionOk = false := by
        cases h : env.genSchemaVersionOk
        · rfl
        · exact absurd h hgen
      have hr : onColumnAdd env job tbl =
          ⟨.error .genSchemaVersionErr, job, tbl, [Effect.genSchemaVersion]⟩ := by
        simp [onColumnAdd, hti, hargs, hfind, hnp, hgen']
      rw [hr] at hres
      simp at hres
  · -- (c) all-ok environments advance exactly one step
    intro ci hfind hnp henv
    obtain ⟨hres, _, ⟨ci', hf', hs'⟩, _⟩ :=
      onColumnAdd_allOk_found env job tbl spec ci henv hargs hfind hnp
    exact ⟨hres, by simp [colStateIn, hf', hs']⟩
  · -- (d) the full ladder from a fresh table
    intro hfresh htp henv
    obtain ⟨hres1, hargs1, hjs1, ci1, hfind1, hst1⟩ :=
      onColumnAdd_allOk_fresh env job tbl spec henv hargs hfresh htp
    have hnp1 : ci1.state ≠ .public := by simp [hst1]
    obtain ⟨hres2, hargs2, ⟨ci2, hfind2, hst2⟩, hjs2⟩ :=
      onColumnAdd_allOk_found env (onColumnAdd env job tbl).job
        (onColumnAdd env job tbl).tbl spec ci1 henv hargs1 hfind1 hnp1
    have hst2' : ci2.state = .writeOnly := by simp [hst2, hst1, nextState]
    have hnp2 : ci2.state ≠ .public := by simp [hst2']
    obtain ⟨hres3, hargs3, ⟨ci3, hfind3, hst3⟩, hjs3⟩ :=
      onColumnAdd_allOk_found env
        (onColumnAdd env (onColumnAdd env job tbl).job (onColumnAdd env job tbl).tbl).job
        (onColumnAdd env (onColumnAdd env job tbl).job (onColumnAdd env job tbl).tbl).tbl
        spec ci2 henv hargs2 hfind2 hnp2
    have hst3' : ci3.state = .reorganization := by simp [hst3, hst2', nextState]
    have hnp3 : ci3.state ≠ .public := by simp [hst3']
    obtain ⟨hres4, hargs4, ⟨ci4, hfind4, hst4⟩, hjs4⟩ :=
      onColumnAdd_allOk_found env
        (onColumnAdd env
          (onColumnAdd env (onColumnAdd env job tbl).job (onColumnAdd env job tbl).tbl).job
          (onColumnAdd env (onColumnAdd env job tbl).job
            (onColumnAdd env job tbl).tbl).tbl).job
        (onColumnAdd env
          (onColumnAdd env (onColumnAdd env job tbl).job (onColumnAdd env job tbl).tbl).job
          (onColumnAdd env (onColumnAdd env job tbl).job
            (onColumnAdd env job tbl).tbl).tbl).tbl
        spec ci3 henv hargs3 hfind3 hnp3
    have hst4' : ci4.state = .public := by simp [hst4, hst3', nextState]
    have hp : addColumnPosition tbl spec = .ok tbl.columns.length := by
      simp [addColumnPosition, htp]
    obtain ⟨ci₀, tbl₀, hok, hci₀, _⟩ :=
      addColumn_ok_description tbl spec tbl.columns.length hp le_rfl
    refine ⟨⟨ci₀, tbl₀, hok, by simp [hci₀]⟩, ?_, ?_, ?_, ?_, ?_⟩
    · simp only [runN_succ, runN_zero]
      simp [colStateIn, hfind1, hst1]
    · simp only [runN_succ, runN_zero]
      simp [colStateIn, hfind2, hst2', hst2]
    · simp only [runN_succ, runN_zero]
      simp [colStateIn, hfind3, hst3']
    · simp only [runN_succ, runN_zero]
      simp [colStateIn, hfind4, hst4']
    · simp only [runN_succ, runN_zero]
      rw [hjs4]
      simp [hst3']

theorem C1_phase_ladder_witness :
    (∃ ci₀ tbl₀, addColumn tblA specAddC = .ok (ci₀, tbl₀) ∧ ci₀.state = .stNone) ∧
    colStateIn (runN envOk 1 (jobWith (some specAddC) 0, tblA)).2 "c" =
      some .deleteOnly ∧
    colStateIn (runN envOk 2 (jobWith (some specAddC) 0, tblA)).2 "c" =
      some .writeOnly ∧
    colStateIn (runN envOk 3 (jobWith (some specAddC) 0, tblA)).2 "c" =
      some .reorganization ∧
    colStateIn (runN envOk 4 (jobWith (some specAddC) 0, tblA)).2 "c" =
      some .public ∧
    (runN envOk 4 (jobWith (some specAddC) 0, tblA)).1.state = .done :=
  (C1_phase_ladder envOk (jobWith (some specAddC) 0) tblA specAddC rfl rfl).2.2.2
    rfl rfl (by decide)

end Ddl
